import Mathlib

/-!
Shallow embedding of the mod-request tracking service (`src/app.py`).

The service keeps a single Mongo collection of request documents; each
handler is modelled as a pure function from the store (a list of
`(_id, record)` pairs, in insertion order) and its inputs to a result and
the new store.  Each call to `datetime.utcnow()` in a handler body is
modelled as a separate explicit time argument (`t1`, `t2`, in the order
the calls occur in the Python text); times are `Nat` instants.
`ObjectId(id)` raising `bson.errors.InvalidId` on a malformed string,
caught by the handler's blanket `except`, is modelled by the
`isValidObjectId` test guarding a `serverError` result.  Discord
notification is a fire-and-forget side effect with no influence on the
store or the response, so it is not modelled.
-/

namespace ModsPlatform

/-- Role list `ADMINS` from app.py. -/
def ADMINS : List String := ["1329817290052734980"]

/-- Role list `MANAGERS` from app.py. -/
def MANAGERS : List String := ["850344514605416468"]

/-- An embedded comment document: `{userId, comment, timestamp}`. -/
structure Comment where
  userId : String
  comment : String
  timestamp : Nat
deriving DecidableEq, Repr

/-- A request document as built by `create_request` in app.py. -/
structure RequestRecord where
  gameName : String
  latestVersion : String
  details : String
  iconUrl : String
  createdBy : String
  comments : List Comment
  timestamp : Nat
  lastActivity : Nat
deriving DecidableEq, Repr

/-- The `requests` collection: documents keyed by their `_id`, in
insertion order. -/
abbrev Store := List (String × RequestRecord)

/-- Hex digit test for ObjectId well-formedness. -/
def isHexChar (c : Char) : Bool :=
  c.isDigit || (('a' ≤ c) && (c ≤ 'f')) || (('A' ≤ c) && (c ≤ 'F'))

/-- `ObjectId(id)` succeeds exactly on 24-character hex strings; anything
else raises `bson.errors.InvalidId`. -/
def isValidObjectId (s : String) : Bool :=
  s.length == 24 && s.data.all isHexChar

/-- `find_one({"_id": ObjectId(id)})`: the first document with that id. -/
def findOne : Store → String → Option RequestRecord
  | [], _ => none
  | p :: rest, id => if p.1 = id then some p.2 else findOne rest id

/-- `update_one({"_id": ObjectId(id)}, ...)`: replace the first document
with that id. -/
def updateOne : Store → String → RequestRecord → Store
  | [], _, _ => []
  | p :: rest, id, r => if p.1 = id then (id, r) :: rest else p :: updateOne rest id r

/-- `delete_one({"_id": ObjectId(id)})`: remove the first document with
that id. -/
def deleteOne : Store → String → Store
  | [], _ => []
  | p :: rest, id => if p.1 = id then rest else p :: deleteOne rest id

/-- Python `str.strip()`: drop whitespace from both ends. -/
def strip (s : String) : String :=
  ⟨((s.data.dropWhile Char.isWhitespace).reverse.dropWhile Char.isWhitespace).reverse⟩

/-- The error responses the handlers produce, by HTTP status and
message: 400 validation, 404 not found, 403 forbidden, 400 out-of-bounds
index, and the blanket 500 from each handler's `except` clause. -/
inductive ApiError where
  | validationError (msg : String)
  | notFound (msg : String)
  | forbidden (msg : String)
  | outOfRange (msg : String)
  | serverError (msg : String)
deriving DecidableEq, Repr

/-- The success payloads: 201 with the new id, a single record, the
sorted record list, or a plain ack message. -/
inductive ApiSuccess where
  | created (id : String)
  | record (id : String) (r : RequestRecord)
  | records (rs : List (String × RequestRecord))
  | ack (msg : String)
deriving DecidableEq, Repr

abbrev ApiResult := Except ApiError ApiSuccess

instance : DecidableEq ApiResult := fun x y =>
  match x, y with
  | .ok a, .ok b =>
    if h : a = b then .isTrue (h ▸ rfl) else .isFalse (fun hc => h (Except.ok.inj hc))
  | .error a, .error b =>
    if h : a = b then .isTrue (h ▸ rfl) else .isFalse (fun hc => h (Except.error.inj hc))
  | .ok _, .error _ => .isFalse (fun hc => Except.noConfusion hc)
  | .error _, .ok _ => .isFalse (fun hc => Except.noConfusion hc)

/-- Body of `POST /request`; `none` marks a field absent from the JSON. -/
structure CreatePayload where
  gameName : Option String
  latestVersion : Option String
  details : Option String
  iconUrl : Option String
  createdBy : Option String
deriving DecidableEq, Repr

/-- `create_request` (app.py lines 68-104): reject missing/empty
`gameName`, else insert a fresh document with empty comments;
`timestamp` and `lastActivity` come from two successive `utcnow()`
calls `t1`, `t2`.  `freshId` is the store-assigned `inserted_id`. -/
def create_request (s : Store) (data : CreatePayload) (freshId : String)
    (t1 t2 : Nat) : ApiResult × Store :=
  match data.gameName with
  | none => (.error (.validationError ("gameName is required")), s)
  | some g =>
    if g = "" then (.error (.validationError ("gameName is required")), s)
    else
      let newRecord : RequestRecord :=
        { gameName := g
          latestVersion := data.latestVersion.getD ""
          details := data.details.getD ""
          iconUrl := data.iconUrl.getD ""
          createdBy := data.createdBy.getD "anonymous"
          comments := []
          timestamp := t1
          lastActivity := t2 }
      (.ok (.created freshId), s ++ [(freshId, newRecord)])

/-- Sort key of `GET /requests`: `sort("lastActivity", -1)`, most recent
first. -/
def activityDesc (a b : String × RequestRecord) : Prop :=
  b.2.lastActivity ≤ a.2.lastActivity

instance : DecidableRel activityDesc := fun a b =>
  inferInstanceAs (Decidable (b.2.lastActivity ≤ a.2.lastActivity))

instance : IsTotal (String × RequestRecord) activityDesc :=
  ⟨fun a b => Nat.le_total b.2.lastActivity a.2.lastActivity⟩

instance : IsTrans (String × RequestRecord) activityDesc :=
  ⟨fun _ _ _ h1 h2 => Nat.le_trans h2 h1⟩

/-- `get_requests` (app.py lines 107-118): every document, sorted by
`lastActivity` descending. -/
def get_requests (s : Store) : ApiResult × Store :=
  (.ok (.records (s.insertionSort activityDesc)), s)

/-- `get_request` (app.py lines 121-132): a malformed id makes
`ObjectId(id)` raise, caught by the blanket `except` into a 500; a
well-formed id that matches nothing gives 404. -/
def get_request (s : Store) (id : String) : ApiResult × Store :=
  if isValidObjectId id then
    match findOne s id with
    | none => (.error (.notFound ("Request not found")), s)
    | some r => (.ok (.record id r), s)
  else
    (.error (.serverError ("is not a valid ObjectId")), s)

/-- Body of `PUT /request/<id>`. -/
structure UpdatePayload where
  currentUserId : Option String
  gameName : Option String
  latestVersion : Option String
  details : Option String
  iconUrl : Option String
deriving DecidableEq, Repr

/-- `update_request` (app.py lines 135-166): creator-only partial
update; each metadata field present in the body (even as `""`) replaces
the stored value via `data.get(field, req[field])`; `timestamp` and
`lastActivity` are two successive `utcnow()` reads `t1`, `t2`. -/
def update_request (s : Store) (id : String) (data : UpdatePayload)
    (t1 t2 : Nat) : ApiResult × Store :=
  if isValidObjectId id then
    match findOne s id with
    | none => (.error (.notFound ("Request not found")), s)
    | some req =>
      let current_user := data.currentUserId.getD ""
      if req.createdBy ≠ current_user then
        (.error (.forbidden ("Not authorized to edit this request")), s)
      else
        let updated : RequestRecord :=
          { req with
            gameName := data.gameName.getD req.gameName
            latestVersion := data.latestVersion.getD req.latestVersion
            details := data.details.getD req.details
            iconUrl := data.iconUrl.getD req.iconUrl
            timestamp := t1
            lastActivity := t2 }
        (.ok (.ack ("Request updated successfully")), updateOne s id updated)
  else
    (.error (.serverError ("is not a valid ObjectId")), s)

/-- `delete_request` (app.py lines 169-188): creator or admin only. -/
def delete_request (s : Store) (id : String) (currentUserId : Option String) :
    ApiResult × Store :=
  if isValidObjectId id then
    match findOne s id with
    | none => (.error (.notFound ("Request not found")), s)
    | some req =>
      let current_user := currentUserId.getD ""
      if req.createdBy ≠ current_user ∧ current_user ∉ ADMINS then
        (.error (.forbidden ("Not authorized to delete this request")), s)
      else
        (.ok (.ack ("Request deleted successfully")), deleteOne s id)
  else
    (.error (.serverError ("is not a valid ObjectId")), s)

/-- `add_comment` (app.py lines 191-238): the stripped-empty check at
line 198 precedes the `ObjectId`/`find_one` lookup at line 201; creator,
manager or admin may comment; `$push` appends the entry (timestamped
`t1`) and `$set` stamps `lastActivity` with the second read `t2`. -/
def add_comment (s : Store) (id : String) (currentUserId : Option String)
    (commentField : Option String) (t1 t2 : Nat) : ApiResult × Store :=
  let current_user := currentUserId.getD ""
  let comment_text := strip (commentField.getD "")
  if comment_text = "" then
    (.error (.validationError ("Comment cannot be empty")), s)
  else if isValidObjectId id then
    match findOne s id with
    | none => (.error (.notFound ("Request not found")), s)
    | some req =>
      if req.createdBy ≠ current_user ∧ current_user ∉ ADMINS ∧
          current_user ∉ MANAGERS then
        (.error (.forbidden ("Not authorized to comment")), s)
      else
        let comment_entry : Comment :=
          { userId := current_user, comment := comment_text, timestamp := t1 }
        let updated : RequestRecord :=
          { req with
            comments := req.comments ++ [comment_entry]
            lastActivity := t2 }
        (.ok (.ack ("Comment added successfully")), updateOne s id updated)
  else
    (.error (.serverError ("is not a valid ObjectId")), s)

/-- `delete_comment` (app.py lines 241-281): bounds-checked positional
lookup of the target entry, owner-or-admin authorization, then Mongo
`$pull {comments: comment}` — which removes every array element equal
to the looked-up value, modelled by `List.filter` — and a `lastActivity`
stamp from the single `utcnow()` read `t1`. -/
def delete_comment (s : Store) (id : String) (index : Int)
    (currentUserId : Option String) (t1 : Nat) : ApiResult × Store :=
  if isValidObjectId id then
    match findOne s id with
    | none => (.error (.notFound ("Request not found")), s)
    | some req =>
      let current_user := currentUserId.getD ""
      let comments := req.comments
      if hidx : index < 0 ∨ (comments.length : Int) ≤ index then
        (.error (.outOfRange ("Comment index out of bounds")), s)
      else
        have hlt : index.toNat < comments.length := by
          push_neg at hidx
          omega
        let comment := comments.get ⟨index.toNat, hlt⟩
        let owner := comment.userId
        if owner ≠ current_user ∧ current_user ∉ ADMINS then
          (.error (.forbidden ("Not authorized to delete this comment")), s)
        else
          let updated : RequestRecord :=
            { req with
              comments := comments.filter (fun c => c ≠ comment)
              lastActivity := t1 }
          (.ok (.ack ("Comment deleted successfully")), updateOne s id updated)
  else
    (.error (.serverError ("is not a valid ObjectId")), s)

/-! ### Store lemmas -/

theorem findOne_eq_some_mem {s : Store} {id : String} {r : RequestRecord}
    (h : findOne s id = some r) : (id, r) ∈ s := by
  induction s with
  | nil => simp [findOne] at h
  | cons p rest ih =>
    rw [findOne] at h
    split at h
    · rename_i hp
      cases h
      obtain ⟨a, b⟩ := p
      cases hp
      exact List.mem_cons_self _ _
    · exact List.mem_cons_of_mem _ (ih h)

theorem mem_keys_of_findOne {s : Store} {id : String} {r : RequestRecord}
    (h : findOne s id = some r) : id ∈ s.map Prod.fst := by
  have := findOne_eq_some_mem h
  exact List.mem_map.mpr ⟨(id, r), this, rfl⟩

theorem findOne_eq_none_of_not_mem_keys {s : Store} {id : String}
    (h : id ∉ s.map Prod.fst) : findOne s id = none := by
  induction s with
  | nil => rfl
  | cons p rest ih =>
    rw [findOne]
    simp only [List.map_cons, List.mem_cons] at h
    push_neg at h
    rw [if_neg (fun hc => h.1 hc.symm)]
    exact ih h.2

theorem findOne_append (s : Store) (q : String × RequestRecord) (id : String) :
    findOne (s ++ [q]) id =
      match findOne s id with
      | some r => some r
      | none => if q.1 = id then some q.2 else none := by
  induction s with
  | nil => simp [findOne]
  | cons p rest ih =>
    by_cases hp : p.1 = id
    · simp [findOne, hp]
    · simp only [List.cons_append, findOne, if_neg hp]
      exact ih

theorem mem_updateOne {s : Store} {id : String} {r : RequestRecord}
    {p : String × RequestRecord} (h : p ∈ updateOne s id r) :
    p = (id, r) ∨ p ∈ s := by
  induction s with
  | nil => simp [updateOne] at h
  | cons q rest ih =>
    rw [updateOne] at h
    split at h
    · rcases List.mem_cons.mp h with h1 | h1
      · exact Or.inl h1
      · exact Or.inr (List.mem_cons_of_mem _ h1)
    · rcases List.mem_cons.mp h with h1 | h1
      · exact Or.inr (h1 ▸ List.mem_cons_self _ _)
      · rcases ih h1 with h2 | h2
        · exact Or.inl h2
        · exact Or.inr (List.mem_cons_of_mem _ h2)

theorem keys_updateOne (s : Store) (id : String) (r : RequestRecord) :
    (updateOne s id r).map Prod.fst = s.map Prod.fst := by
  induction s with
  | nil => rfl
  | cons q rest ih =>
    rw [updateOne]
    split
    · rename_i hq
      simp [hq]
    · simp [ih]

theorem findOne_updateOne_self {s : Store} {id : String} {q r : RequestRecord}
    (h : findOne s id = some q) : findOne (updateOne s id r) id = some r := by
  induction s with
  | nil => simp [findOne] at h
  | cons p rest ih =>
    rw [findOne] at h
    rw [updateOne]
    split
    · simp [findOne]
    · rename_i hp
      rw [findOne, if_neg hp]
      exact ih (by rwa [if_neg hp] at h)

theorem findOne_updateOne_ne {s : Store} {id id' : String} {r : RequestRecord}
    (h : id' ≠ id) : findOne (updateOne s id r) id' = findOne s id' := by
  induction s with
  | nil => rfl
  | cons p rest ih =>
    rw [updateOne]
    split
    · rename_i hp
      rw [findOne, findOne, hp, if_neg (fun hc => h hc.symm), if_neg (fun hc => h hc.symm)]
    · rw [findOne, findOne]
      split
      · rfl
      · exact ih

theorem mem_updateOne_of_nodup {s : Store} {id : String} {r : RequestRecord}
    {p : String × RequestRecord} (hN : (s.map Prod.fst).Nodup)
    (h : p ∈ updateOne s id r) : p = (id, r) ∨ (p ∈ s ∧ p.1 ≠ id) := by
  induction s with
  | nil => simp [updateOne] at h
  | cons q rest ih =>
    simp only [List.map_cons, List.nodup_cons] at hN
    rw [updateOne] at h
    split at h
    · rename_i hq
      rcases List.mem_cons.mp h with h1 | h1
      · exact Or.inl h1
      · refine Or.inr ⟨List.mem_cons_of_mem _ h1, fun hc => hN.1 ?_⟩
        rw [hq, ← hc]
        exact List.mem_map.mpr ⟨p, h1, rfl⟩
    · rename_i hq
      rcases List.mem_cons.mp h with h1 | h1
      · exact Or.inr ⟨h1 ▸ List.mem_cons_self _ _, h1 ▸ hq⟩
      · rcases ih hN.2 h1 with h2 | h2
        · exact Or.inl h2
        · exact Or.inr ⟨List.mem_cons_of_mem _ h2.1, h2.2⟩

theorem mem_deleteOne {s : Store} {id : String} {p : String × RequestRecord}
    (h : p ∈ deleteOne s id) : p ∈ s := by
  induction s with
  | nil => simp [deleteOne] at h
  | cons q rest ih =>
    rw [deleteOne] at h
    split at h
    · exact List.mem_cons_of_mem _ h
    · rcases List.mem_cons.mp h with h1 | h1
      · exact h1 ▸ List.mem_cons_self _ _
      · exact List.mem_cons_of_mem _ (ih h1)

theorem nodup_keys_deleteOne {s : Store} {id : String}
    (hN : (s.map Prod.fst).Nodup) : ((deleteOne s id).map Prod.fst).Nodup := by
  induction s with
  | nil => exact hN
  | cons q rest ih =>
    simp only [List.map_cons, List.nodup_cons] at hN
    rw [deleteOne]
    split
    · exact hN.2
    · rw [List.map_cons, List.nodup_cons]
      refine ⟨fun hc => hN.1 ?_, ih hN.2⟩
      rcases List.mem_map.mp hc with ⟨p, hp, hpe⟩
      exact hpe ▸ List.mem_map.mpr ⟨p, mem_deleteOne hp, rfl⟩

theorem findOne_deleteOne_ne {s : Store} {id id' : String} (h : id' ≠ id) :
    findOne (deleteOne s id) id' = findOne s id' := by
  induction s with
  | nil => rfl
  | cons p rest ih =>
    rw [deleteOne]
    split
    · rename_i hp
      rw [findOne, hp, if_neg (fun hc => h hc.symm)]
    · rw [findOne, findOne]
      split
      · rfl
      · exact ih

theorem findOne_deleteOne_self {s : Store} {id : String}
    (hN : (s.map Prod.fst).Nodup) : findOne (deleteOne s id) id = none := by
  induction s with
  | nil => rfl
  | cons p rest ih =>
    simp only [List.map_cons, List.nodup_cons] at hN
    rw [deleteOne]
    split
    · rename_i hp
      apply findOne_eq_none_of_not_mem_keys
      rw [← hp]
      exact hN.1
    · rename_i hp
      rw [findOne, if_neg hp]
      exact ih hN.2

/-! ### The boundary operations as a single step type -/

/-- One inbound call to any of the mutating or reading routes, with the
`utcnow()` reads of its handler as explicit arguments. -/
inductive Op where
  | createOp (data : CreatePayload) (freshId : String) (t1 t2 : Nat)
  | listOp
  | getOp (id : String)
  | updateOp (id : String) (data : UpdatePayload) (t1 t2 : Nat)
  | deleteOp (id : String) (currentUserId : Option String)
  | addCommentOp (id : String) (currentUserId : Option String)
      (commentField : Option String) (t1 t2 : Nat)
  | deleteCommentOp (id : String) (index : Int) (currentUserId : Option String)
      (t1 : Nat)
deriving DecidableEq, Repr

/-- Dispatch an operation to its handler. -/
def Op.run : Op → Store → ApiResult × Store
  | .createOp d f t1 t2, s => create_request s d f t1 t2
  | .listOp, s => get_requests s
  | .getOp id, s => get_request s id
  | .updateOp id d t1 t2, s => update_request s id d t1 t2
  | .deleteOp id u, s => delete_request s id u
  | .addCommentOp id u c t1 t2, s => add_comment s id u c t1 t2
  | .deleteCommentOp id i u t1, s => delete_comment s id i u t1

/-- The `utcnow()` reads an operation's handler performs, in call
order. -/
def Op.times : Op → List Nat
  | .createOp _ _ t1 t2 => [t1, t2]
  | .listOp => []
  | .getOp _ => []
  | .updateOp _ _ t1 t2 => [t1, t2]
  | .deleteOp _ _ => []
  | .addCommentOp _ _ _ t1 t2 => [t1, t2]
  | .deleteCommentOp _ _ _ t1 => [t1]

/-- Mongo assigns a fresh `_id` on insert: for a create, the chosen id
is not already a key of the store. -/
def Op.freshOk : Op → Store → Prop
  | .createOp _ f _ _, s => ∀ p ∈ s, p.1 ≠ f
  | _, _ => True

instance : ∀ (o : Op) (s : Store), Decidable (o.freshOk s)
  | .createOp _ f _ _, s => inferInstanceAs (Decidable (∀ p ∈ s, p.1 ≠ f))
  | .listOp, _ => .isTrue True.intro
  | .getOp _, _ => .isTrue True.intro
  | .updateOp _ _ _ _, _ => .isTrue True.intro
  | .deleteOp _ _, _ => .isTrue True.intro
  | .addCommentOp _ _ _ _ _, _ => .isTrue True.intro
  | .deleteCommentOp _ _ _ _, _ => .isTrue True.intro

/-- Run a sequence of operations, keeping only the evolving store. -/
def runOps (ops : List Op) (s : Store) : Store :=
  ops.foldl (fun st o => (o.run st).2) s

/-- Every stored record has `timestamp ≤ lastActivity`. -/
def StoreInv (s : Store) : Prop :=
  ∀ p ∈ s, p.2.timestamp ≤ p.2.lastActivity

/-- Every stored record's `lastActivity` is at most `b`. -/
def StoreBound (s : Store) (b : Nat) : Prop :=
  ∀ p ∈ s, p.2.lastActivity ≤ b

instance (s : Store) : Decidable (StoreInv s) :=
  inferInstanceAs (Decidable (∀ p ∈ s, p.2.timestamp ≤ p.2.lastActivity))

instance (s : Store) (b : Nat) : Decidable (StoreBound s b) :=
  inferInstanceAs (Decidable (∀ p ∈ s, p.2.lastActivity ≤ b))

/-- `ChainLe b l`: the reads `l` are weakly increasing starting at or
above `b`. -/
def ChainLe : Nat → List Nat → Prop
  | _, [] => True
  | b, t :: rest => b ≤ t ∧ ChainLe t rest

theorem chainLe_nil {b : Nat} : ChainLe b [] ↔ True := Iff.rfl

theorem chainLe_cons {b t : Nat} {l : List Nat} :
    ChainLe b (t :: l) ↔ b ≤ t ∧ ChainLe t l := Iff.rfl

def chainLeDec : (b : Nat) → (l : List Nat) → Decidable (ChainLe b l)
  | _, [] => .isTrue True.intro
  | b, t :: rest =>
    have : Decidable (ChainLe t rest) := chainLeDec t rest
    inferInstanceAs (Decidable (b ≤ t ∧ ChainLe t rest))

instance (b : Nat) (l : List Nat) : Decidable (ChainLe b l) := chainLeDec b l

/-- The wall clock never runs backwards across a sequence of calls:
each handler's `utcnow()` reads are at least the bound `b` reached so
far and weakly increasing, and each insert gets a genuinely fresh id.
After a step the bound becomes the largest read so far. -/
def ClockOk : Nat → List Op → Store → Prop
  | _, [], _ => True
  | b, o :: os, s =>
    ChainLe b o.times ∧ o.freshOk s ∧
      ClockOk (o.times.foldl max b) os (o.run s).2

def clockOkDec : (b : Nat) → (ops : List Op) → (s : Store) → Decidable (ClockOk b ops s)
  | _, [], _ => .isTrue True.intro
  | b, o :: os, s =>
    have : Decidable (ClockOk (o.times.foldl max b) os (o.run s).2) :=
      clockOkDec _ os _
    inferInstanceAs (Decidable (ChainLe b o.times ∧ o.freshOk s ∧
      ClockOk (o.times.foldl max b) os (o.run s).2))

instance (b : Nat) (ops : List Op) (s : Store) : Decidable (ClockOk b ops s) :=
  clockOkDec b ops s

theorem le_foldl_max (l : List Nat) (b : Nat) : b ≤ l.foldl max b := by
  induction l generalizing b with
  | nil => exact Nat.le_refl b
  | cons t rest ih => exact Nat.le_trans (Nat.le_max_left b t) (ih (max b t))

/-! ### Handler store-shape lemmas -/

theorem create_request_shape (s : Store) (d : CreatePayload) (f : String)
    (t1 t2 : Nat) :
    (create_request s d f t1 t2).2 = s ∨
    (create_request s d f t1 t2).2 = s ++ [(f,
      { gameName := d.gameName.getD ""
        latestVersion := d.latestVersion.getD ""
        details := d.details.getD ""
        iconUrl := d.iconUrl.getD ""
        createdBy := d.createdBy.getD "anonymous"
        comments := []
        timestamp := t1
        lastActivity := t2 })] := by
  unfold create_request
  split
  · exact Or.inl rfl
  · rename_i g heq
    split
    · exact Or.inl rfl
    · right
      simp [heq]

theorem get_requests_snd (s : Store) : (get_requests s).2 = s := rfl

theorem get_request_snd (s : Store) (id : String) : (get_request s id).2 = s := by
  unfold get_request
  split
  · split <;> rfl
  · rfl

theorem update_request_shape (s : Store) (id : String) (d : UpdatePayload)
    (t1 t2 : Nat) :
    (update_request s id d t1 t2).2 = s ∨
    ∃ req upd, findOne s id = some req ∧
      (update_request s id d t1 t2).2 = updateOne s id upd ∧
      upd.timestamp = t1 ∧ upd.lastActivity = t2 := by
  unfold update_request
  dsimp only
  split
  · split
    · exact Or.inl rfl
    · rename_i req heq
      split
      · exact Or.inl rfl
      · right
        exact ⟨req, _, heq, rfl, rfl, rfl⟩
  · exact Or.inl rfl

theorem delete_request_shape (s : Store) (id : String) (u : Option String) :
    (delete_request s id u).2 = s ∨ (delete_request s id u).2 = deleteOne s id := by
  unfold delete_request
  dsimp only
  split
  · split
    · exact Or.inl rfl
    · split
      · exact Or.inl rfl
      · exact Or.inr rfl
  · exact Or.inl rfl

theorem add_comment_shape (s : Store) (id : String) (u c : Option String)
    (t1 t2 : Nat) :
    (add_comment s id u c t1 t2).2 = s ∨
    ∃ req upd, findOne s id = some req ∧
      (add_comment s id u c t1 t2).2 = updateOne s id upd ∧
      upd.timestamp = req.timestamp ∧ upd.lastActivity = t2 := by
  unfold add_comment
  dsimp only
  split
  · exact Or.inl rfl
  · split
    · split
      · exact Or.inl rfl
      · rename_i req heq
        split
        · exact Or.inl rfl
        · right
          exact ⟨req, _, heq, rfl, rfl, rfl⟩
    · exact Or.inl rfl

theorem delete_comment_shape (s : Store) (id : String) (i : Int)
    (u : Option String) (t1 : Nat) :
    (delete_comment s id i u t1).2 = s ∨
    ∃ req upd, findOne s id = some req ∧
      (delete_comment s id i u t1).2 = updateOne s id upd ∧
      upd.timestamp = req.timestamp ∧ upd.lastActivity = t1 := by
  unfold delete_comment
  dsimp only
  split
  · split
    · exact Or.inl rfl
    · rename_i req heq
      split
      · exact Or.inl rfl
      · split
        · exact Or.inl rfl
        · right
          exact ⟨req, _, heq, rfl, rfl, rfl⟩
  · exact Or.inl rfl

/-! ### Step and sequence lemmas -/

theorem StoreBound.mono {s : Store} {b b' : Nat} (h : StoreBound s b)
    (hbb : b ≤ b') : StoreBound s b' :=
  fun p hp => Nat.le_trans (h p hp) hbb

/-- Every handler that answers with an error leaves the store exactly as
it found it. -/
theorem run_error_frame (o : Op) (s : Store) (e : ApiError)
    (h : (o.run s).1 = .error e) : (o.run s).2 = s := by
  cases o <;>
    simp only [Op.run, create_request, get_requests, get_request, update_request,
      delete_request, add_comment, delete_comment] at h ⊢ <;>
    (repeat' first | rfl | (split at h) | (split_ifs at h)) <;>
    simp_all

/-- One step preserves key uniqueness, the `timestamp ≤ lastActivity`
invariant and the activity bound, and every record found afterwards
either descends from a record found before (with no smaller
`lastActivity`) or was stamped at or after the clock bound. -/
theorem step_main (o : Op) (s : Store) (b : Nat)
    (hN : (s.map Prod.fst).Nodup) (hI : StoreInv s) (hB : StoreBound s b)
    (hC : ChainLe b o.times) (hF : o.freshOk s) :
    (((o.run s).2).map Prod.fst).Nodup ∧
    StoreInv (o.run s).2 ∧
    StoreBound (o.run s).2 (o.times.foldl max b) ∧
    ∀ id rm, findOne (o.run s).2 id = some rm →
      (∃ r, findOne s id = some r ∧ r.lastActivity ≤ rm.lastActivity) ∨
        b ≤ rm.lastActivity := by
  cases o with
  | createOp d f t1 t2 =>
    simp only [Op.times, chainLe_cons, chainLe_nil, and_true] at hC
    simp only [Op.freshOk] at hF
    simp only [Op.run, Op.times, List.foldl_cons, List.foldl_nil]
    rcases create_request_shape s d f t1 t2 with hsh | hsh <;> rw [hsh]
    · exact ⟨hN, hI, hB.mono (Nat.le_trans (Nat.le_max_left _ _) (Nat.le_max_left _ _)),
        fun id rm h => Or.inl ⟨rm, h, Nat.le_refl _⟩⟩
    · refine ⟨?_, ?_, ?_, ?_⟩
      · rw [List.map_append, List.map_cons, List.map_nil]
        refine List.Nodup.append hN (List.nodup_singleton _) ?_
        intro a ha hb
        rcases List.mem_map.mp ha with ⟨p, hp, hpa⟩
        rcases List.mem_singleton.mp hb with rfl
        exact hF p hp hpa
      · intro p hp
        rcases List.mem_append.mp hp with hp1 | hp1
        · exact hI p hp1
        · rcases List.mem_singleton.mp hp1 with rfl
          exact Nat.le_trans hC.2 (Nat.le_refl _)
      · intro p hp
        rcases List.mem_append.mp hp with hp1 | hp1
        · exact Nat.le_trans (hB p hp1)
            (Nat.le_trans (Nat.le_max_left _ _) (Nat.le_max_left _ _))
        · rcases List.mem_singleton.mp hp1 with rfl
          exact Nat.le_max_right _ _
      · intro id rm h
        rw [findOne_append] at h
        cases hfs : findOne s id with
        | some r =>
          rw [hfs] at h
          cases h
          exact Or.inl ⟨_, rfl, Nat.le_refl _⟩
        | none =>
          rw [hfs] at h
          dsimp only at h
          split at h
          · cases h
            exact Or.inr (Nat.le_trans hC.1 hC.2)
          · cases h
  | listOp =>
    exact ⟨hN, hI, hB, fun id rm h => Or.inl ⟨rm, h, Nat.le_refl _⟩⟩
  | getOp id =>
    simp only [Op.run, Op.times, List.foldl_nil]
    rw [get_request_snd]
    exact ⟨hN, hI, hB, fun id rm h => Or.inl ⟨rm, h, Nat.le_refl _⟩⟩
  | updateOp rid d t1 t2 =>
    simp only [Op.times, chainLe_cons, chainLe_nil, and_true] at hC
    simp only [Op.run, Op.times, List.foldl_cons, List.foldl_nil]
    rcases update_request_shape s rid d t1 t2 with hsh |
      ⟨req, upd, hfind, hsh, hts, hla⟩ <;> rw [hsh]
    · exact ⟨hN, hI, hB.mono (Nat.le_trans (Nat.le_max_left _ _) (Nat.le_max_left _ _)),
        fun id rm h => Or.inl ⟨rm, h, Nat.le_refl _⟩⟩
    · refine ⟨?_, ?_, ?_, ?_⟩
      · rw [keys_updateOne]
        exact hN
      · intro p hp
        rcases mem_updateOne hp with rfl | hp1
        · rw [hts, hla]
          exact hC.2
        · exact hI p hp1
      · intro p hp
        rcases mem_updateOne hp with rfl | hp1
        · rw [hla]
          exact Nat.le_max_right _ _
        · exact Nat.le_trans (hB p hp1)
            (Nat.le_trans (Nat.le_max_left _ _) (Nat.le_max_left _ _))
      · intro id rm h
        by_cases hid : id = rid
        · subst hid
          rw [findOne_updateOne_self hfind] at h
          cases h
          exact Or.inr (by rw [hla]; exact Nat.le_trans hC.1 hC.2)
        · rw [findOne_updateOne_ne hid] at h
          exact Or.inl ⟨rm, h, Nat.le_refl _⟩
  | deleteOp rid u =>
    simp only [Op.run, Op.times, List.foldl_nil]
    rcases delete_request_shape s rid u with hsh | hsh <;> rw [hsh]
    · exact ⟨hN, hI, hB, fun id rm h => Or.inl ⟨rm, h, Nat.le_refl _⟩⟩
    · refine ⟨nodup_keys_deleteOne hN, fun p hp => hI p (mem_deleteOne hp),
        fun p hp => hB p (mem_deleteOne hp), ?_⟩
      intro id rm h
      by_cases hid : id = rid
      · subst hid
        rw [findOne_deleteOne_self hN] at h
        cases h
      · rw [findOne_deleteOne_ne hid] at h
        exact Or.inl ⟨rm, h, Nat.le_refl _⟩
  | addCommentOp rid u c t1 t2 =>
    simp only [Op.times, chainLe_cons, chainLe_nil, and_true] at hC
    simp only [Op.run, Op.times, List.foldl_cons, List.foldl_nil]
    rcases add_comment_shape s rid u c t1 t2 with hsh |
      ⟨req, upd, hfind, hsh, hts, hla⟩ <;> rw [hsh]
    · exact ⟨hN, hI, hB.mono (Nat.le_trans (Nat.le_max_left _ _) (Nat.le_max_left _ _)),
        fun id rm h => Or.inl ⟨rm, h, Nat.le_refl _⟩⟩
    · have hreq : (rid, req) ∈ s := findOne_eq_some_mem hfind
      refine ⟨?_, ?_, ?_, ?_⟩
      · rw [keys_updateOne]
        exact hN
      · intro p hp
        rcases mem_updateOne hp with rfl | hp1
        · rw [hts, hla]
          exact Nat.le_trans (hI _ hreq)
            (Nat.le_trans (hB _ hreq) (Nat.le_trans hC.1 hC.2))
        · exact hI p hp1
      · intro p hp
        rcases mem_updateOne hp with rfl | hp1
        · rw [hla]
          exact Nat.le_max_right _ _
        · exact Nat.le_trans (hB p hp1)
            (Nat.le_trans (Nat.le_max_left _ _) (Nat.le_max_left _ _))
      · intro id rm h
        by_cases hid : id = rid
        · subst hid
          rw [findOne_updateOne_self hfind] at h
          cases h
          exact Or.inr (by rw [hla]; exact Nat.le_trans hC.1 hC.2)
        · rw [findOne_updateOne_ne hid] at h
          exact Or.inl ⟨rm, h, Nat.le_refl _⟩
  | deleteCommentOp rid i u t1 =>
    simp only [Op.times, chainLe_cons, chainLe_nil, and_true] at hC
    simp only [Op.run, Op.times, List.foldl_cons, List.foldl_nil]
    rcases delete_comment_shape s rid i u t1 with hsh |
      ⟨req, upd, hfind, hsh, hts, hla⟩ <;> rw [hsh]
    · exact ⟨hN, hI, hB.mono (Nat.le_max_left _ _),
        fun id rm h => Or.inl ⟨rm, h, Nat.le_refl _⟩⟩
    · have hreq : (rid, req) ∈ s := findOne_eq_some_mem hfind
      refine ⟨?_, ?_, ?_, ?_⟩
      · rw [keys_updateOne]
        exact hN
      · intro p hp
        rcases mem_updateOne hp with rfl | hp1
        · rw [hts, hla]
          exact Nat.le_trans (hI _ hreq) (Nat.le_trans (hB _ hreq) hC)
        · exact hI p hp1
      · intro p hp
        rcases mem_updateOne hp with rfl | hp1
        · rw [hla]
          exact Nat.le_max_right _ _
        · exact Nat.le_trans (hB p hp1) (Nat.le_max_left _ _)
      · intro id rm h
        by_cases hid : id = rid
        · subst hid
          rw [findOne_updateOne_self hfind] at h
          cases h
          exact Or.inr (by rw [hla]; exact hC)
        · rw [findOne_updateOne_ne hid] at h
          exact Or.inl ⟨rm, h, Nat.le_refl _⟩

/-- Over a whole well-clocked run, the invariant holds and every
surviving record traces back to an initial one with no larger
`lastActivity`, or carries a stamp at or above the initial bound. -/
theorem runOps_trace (ops : List Op) (s : Store) (b : Nat)
    (hN : (s.map Prod.fst).Nodup) (hI : StoreInv s) (hB : StoreBound s b)
    (hC : ClockOk b ops s) :
    StoreInv (runOps ops s) ∧
    ∀ id rm, findOne (runOps ops s) id = some rm →
      (∃ r, findOne s id = some r ∧ r.lastActivity ≤ rm.lastActivity) ∨
        b ≤ rm.lastActivity := by
  induction ops generalizing s b with
  | nil => exact ⟨hI, fun id rm h => Or.inl ⟨rm, h, Nat.le_refl _⟩⟩
  | cons o os ih =>
    obtain ⟨hchain, hfresh, hrest⟩ := hC
    obtain ⟨hN', hI', hB', htr⟩ := step_main o s b hN hI hB hchain hfresh
    have hx := ih (o.run s).2 (o.times.foldl max b) hN' hI' hB' hrest
    have hrun : runOps (o :: os) s = runOps os (o.run s).2 := rfl
    rw [hrun]
    refine ⟨hx.1, fun id rm h => ?_⟩
    rcases hx.2 id rm h with ⟨r1, hr1, hle⟩ | hge
    · rcases htr id r1 hr1 with ⟨r0, hr0, hle0⟩ | hge0
      · exact Or.inl ⟨r0, hr0, Nat.le_trans hle0 hle⟩
      · exact Or.inr (Nat.le_trans hge0 hle)
    · exact Or.inr (Nat.le_trans (le_foldl_max _ _) hge)

/-! ### Concrete fixtures for witnesses and counterexamples -/

/-- A well-formed ObjectId string. -/
def oidA : String := "0123456789abcdef01234567"

/-- A second, distinct well-formed ObjectId string. -/
def oidB : String := "0123456789abcdef01234568"

/-- Two byte-identical comments by the same author at the same instant. -/
def dupComment : Comment := { userId := "u1", comment := "dup", timestamp := 3 }

/-- A record whose ledger holds two identical entries. -/
def dupRecord : RequestRecord :=
  { gameName := "G", latestVersion := "", details := "", iconUrl := "",
    createdBy := "u1", comments := [dupComment, dupComment],
    timestamp := 1, lastActivity := 2 }

def dupStore : Store := [(oidA, dupRecord)]

/-! ### C1 -/

/-- C1: is refuted by the code. `delete_comment` looks the target entry
up by position but then issues Mongo `$pull {comments: comment}`, a
removal-by-value-match that strips every entry equal to the target: on a
ledger of N = 2 byte-identical entries, deleting index 0 leaves 0
entries, not N - 1 = 1.  This theorem evaluates the handler at that
failing input. -/
theorem C1_delete_comment_removes_all_duplicates :
    (delete_comment dupStore oidA 0 (some "u1") 9).1 =
      .ok (.ack ("Comment deleted successfully")) ∧
    findOne (delete_comment dupStore oidA 0 (some "u1") 9).2 oidA =
      some { dupRecord with comments := [], lastActivity := 9 } := by decide

/-! ### C2 -/

/-- C2 counterexample: at the malformed identifier "zz" the lookup does
not answer 404 "Request not found"; `ObjectId("zz")` raises, the blanket
`except` catches it, and the handler answers 500 with the exception
text. -/
theorem C2_malformed_id_is_server_error :
    (get_request [] "zz").1 = .error (.serverError ("is not a valid ObjectId")) ∧
    (get_request [] "zz").1 ≠ .error (.notFound ("Request not found")) := by
  decide

/-- C2 amended: a malformed identifier is reported as a generic 500
server error (the caught `InvalidId` exception), not as NotFound; the
404 "Request not found" outcome is produced exactly by a well-formed
identifier that matches no stored record. -/
theorem C2_notfound_only_for_wellformed (s : Store) (id : String) :
    (isValidObjectId id = false →
      (get_request s id).1 = .error (.serverError ("is not a valid ObjectId"))) ∧
    (isValidObjectId id = true → findOne s id = none →
      (get_request s id).1 = .error (.notFound ("Request not found"))) := by
  constructor
  · intro h
    simp [get_request, h]
  · intro h hf
    simp [get_request, h, hf]

theorem C2_witness :
    (get_request [] "zz").1 = .error (.serverError ("is not a valid ObjectId")) ∧
    (get_request [] oidA).1 = .error (.notFound ("Request not found")) :=
  ⟨(C2_notfound_only_for_wellformed [] "zz").1 (by decide),
   (C2_notfound_only_for_wellformed [] oidA).2 (by decide) (by decide)⟩

/-! ### C3 -/

def c3Payload : CreatePayload :=
  { gameName := some "G", latestVersion := none, details := none,
    iconUrl := none, createdBy := some "u1" }

/-- The store reached by creating one record with gameName "G". -/
def c3Store : Store := (create_request [] c3Payload oidA 0 1).2

def c3Patch : UpdatePayload :=
  { currentUserId := some "u1", gameName := some "", latestVersion := none,
    details := none, iconUrl := none }

/-- C3 counterexample: starting from a freshly created record with
gameName "G", its creator edits it supplying gameName as the empty
string; `data.get("gameName", req["gameName"])` returns the present
empty string, so the stored gameName becomes empty — the claimed
invariant does not survive edits. -/
theorem C3_edit_can_empty_gameName :
    (update_request c3Store oidA c3Patch 2 3).1 =
      .ok (.ack ("Request updated successfully")) ∧
    (findOne (update_request c3Store oidA c3Patch 2 3).2 oidA).map
      (fun r => r.gameName) = some "" := by decide

/-- C3 amended: creation rejects a missing or empty gameName and writes
nothing, so gameName is non-empty at creation; but edit-metadata invoked
by the creator with gameName supplied as the empty string does set the
stored gameName to the empty string, so non-emptiness is not an
invariant over the record's lifetime. -/
theorem C3_gameName_nonempty_at_creation_only :
    (∀ (s : Store) (p : CreatePayload) (f : String) (t1 t2 : Nat),
      (p.gameName = none ∨ p.gameName = some "") →
      (create_request s p f t1 t2).1 =
        .error (.validationError ("gameName is required")) ∧
      (create_request s p f t1 t2).2 = s) ∧
    (∀ (s : Store) (id : String) (req : RequestRecord) (d : UpdatePayload)
        (t1 t2 : Nat), isValidObjectId id = true → findOne s id = some req →
      req.createdBy = d.currentUserId.getD "" → d.gameName = some "" →
      (findOne (update_request s id d t1 t2).2 id).map (fun r => r.gameName) =
        some "") := by
  constructor
  · intro s p f t1 t2 h
    rcases h with h | h <;> simp [create_request, h]
  · intro s id req d t1 t2 hid hfind hcr hg
    unfold update_request
    dsimp only
    split
    · split
      · rename_i heq
        rw [hfind] at heq
        cases heq
      · rename_i req2 heq
        rw [hfind] at heq
        cases heq
        split
        · rename_i hne
          exact absurd hcr hne
        · dsimp only
          rw [findOne_updateOne_self hfind]
          simp [hg]
    · rename_i hv
      exact absurd hid hv

def c3EmptyPayload : CreatePayload :=
  { gameName := some "", latestVersion := none, details := none,
    iconUrl := none, createdBy := none }

/-- The record that `c3Store` holds at `oidA`. -/
def c3CreatedRec : RequestRecord :=
  { gameName := "G", latestVersion := "", details := "", iconUrl := "",
    createdBy := "u1", comments := [], timestamp := 0, lastActivity := 1 }

theorem C3_witness :
    ((create_request [] c3EmptyPayload oidA 0 0).1 =
      .error (.validationError ("gameName is required")) ∧
     (create_request [] c3EmptyPayload oidA 0 0).2 = ([] : Store)) ∧
    (findOne (update_request c3Store oidA c3Patch 2 3).2 oidA).map
      (fun r => r.gameName) = some "" :=
  ⟨C3_gameName_nonempty_at_creation_only.1 [] c3EmptyPayload oidA 0 0 (Or.inr rfl),
   C3_gameName_nonempty_at_creation_only.2 c3Store oidA c3CreatedRec
     c3Patch 2 3 (by decide) (by decide) (by decide) (by decide)⟩

/-! ### C4 -/

/-- The four rejection classes the claim names; the blanket 500 is a
different class. -/
def isRejection : ApiError → Prop
  | .validationError _ => True
  | .notFound _ => True
  | .forbidden _ => True
  | .outOfRange _ => True
  | .serverError _ => False

/-- C4: whenever any boundary operation answers with a ValidationError,
NotFound, Forbidden or OutOfRange response, the store it returns is the
store it was given: every failure is decided before any insert, update
or delete is issued. -/
theorem C4_rejected_operation_leaves_store_unchanged (o : Op) (s : Store)
    (e : ApiError) (h : (o.run s).1 = .error e) (_hrej : isRejection e) :
    (o.run s).2 = s :=
  run_error_frame o s e h

def c4Payload : CreatePayload :=
  { gameName := none, latestVersion := none, details := none,
    iconUrl := none, createdBy := some "u" }

theorem C4_witness :
    (Op.run (.createOp c4Payload oidA 0 0) []).2 = ([] : Store) :=
  C4_rejected_operation_leaves_store_unchanged (.createOp c4Payload oidA 0 0) []
    (.validationError ("gameName is required")) (by decide) trivial

/-! ### C5 -/

/-- C5: the role matrix.  With a record loaded at a well-formed id and a
manager who is neither the creator nor an admin: the manager may add a
(non-empty) comment, is denied metadata edits, record deletion, and
deletion of a comment authored by someone else; moreover record deletion
succeeds exactly for the creator or an admin, and comment deletion (at
an in-range index) succeeds exactly for that comment's author or an
admin. -/
theorem C5_role_matrix (s : Store) (id : String) (req : RequestRecord)
    (m : String) (hid : isValidObjectId id = true)
    (hfind : findOne s id = some req) (hm : m ∈ MANAGERS) (hma : m ∉ ADMINS)
    (hmc : req.createdBy ≠ m) :
    (∀ (c : String) (t1 t2 : Nat), strip c ≠ "" →
      (add_comment s id (some m) (some c) t1 t2).1 =
        .ok (.ack ("Comment added successfully"))) ∧
    (∀ (d : UpdatePayload) (t1 t2 : Nat), d.currentUserId = some m →
      (update_request s id d t1 t2).1 =
        .error (.forbidden ("Not authorized to edit this request"))) ∧
    ((delete_request s id (some m)).1 =
      .error (.forbidden ("Not authorized to delete this request"))) ∧
    (∀ (i : Int) (t1 : Nat) (hi0 : 0 ≤ i)
        (hilen : i < (req.comments.length : Int)),
      (req.comments.get ⟨i.toNat, by omega⟩).userId ≠ m →
      (delete_comment s id i (some m) t1).1 =
        .error (.forbidden ("Not authorized to delete this comment"))) ∧
    (∀ (u : String), (delete_request s id (some u)).1 =
        .ok (.ack ("Request deleted successfully")) ↔
      (req.createdBy = u ∨ u ∈ ADMINS)) ∧
    (∀ (i : Int) (t1 : Nat) (hi0 : 0 ≤ i)
        (hilen : i < (req.comments.length : Int)) (u : String),
      (delete_comment s id i (some u) t1).1 =
        .ok (.ack ("Comment deleted successfully")) ↔
      ((req.comments.get ⟨i.toNat, by omega⟩).userId = u ∨ u ∈ ADMINS)) := by
  refine ⟨?_, ?_, ?_, ?_, ?_, ?_⟩
  · intro c t1 t2 hc
    unfold add_comment
    dsimp only
    simp only [Option.getD_some]
    rw [if_neg hc, if_pos hid, hfind]
    dsimp only
    rw [if_neg (fun hcond => hcond.2.2 hm)]
  · intro d t1 t2 hd
    unfold update_request
    dsimp only
    rw [if_pos hid, hfind]
    dsimp only
    rw [hd]
    simp only [Option.getD_some]
    rw [if_pos hmc]
  · unfold delete_request
    dsimp only
    rw [if_pos hid, hfind]
    dsimp only
    simp only [Option.getD_some]
    rw [if_pos ⟨hmc, hma⟩]
  · intro i t1 hi0 hilen hauthor
    unfold delete_comment
    dsimp only
    rw [if_pos hid, hfind]
    dsimp only
    rw [dif_neg (by omega)]
    dsimp only
    simp only [Option.getD_some]
    rw [if_pos ⟨hauthor, hma⟩]
  · intro u
    unfold delete_request
    dsimp only
    rw [if_pos hid, hfind]
    dsimp only
    simp only [Option.getD_some]
    split
    · rename_i hcond
      refine iff_of_false (fun hx => Except.noConfusion hx) (fun hx => ?_)
      rcases hx with hx | hx
      · exact hcond.1 hx
      · exact hcond.2 hx
    · rename_i hcond
      rw [not_and_or, not_not, not_not] at hcond
      exact iff_of_true rfl hcond
  · intro i t1 hi0 hilen u
    unfold delete_comment
    dsimp only
    rw [if_pos hid, hfind]
    dsimp only
    rw [dif_neg (by omega)]
    dsimp only
    simp only [Option.getD_some]
    split
    · rename_i hcond
      refine iff_of_false (fun hx => Except.noConfusion hx) (fun hx => ?_)
      rcases hx with hx | hx
      · exact hcond.1 hx
      · exact hcond.2 hx
    · rename_i hcond
      rw [not_and_or, not_not, not_not] at hcond
      exact iff_of_true rfl hcond

def c5Req : RequestRecord :=
  { gameName := "G", latestVersion := "", details := "", iconUrl := "",
    createdBy := "creator5",
    comments := [{ userId := "author5", comment := "hi", timestamp := 1 }],
    timestamp := 0, lastActivity := 1 }

def c5Store : Store := [(oidA, c5Req)]

/-- The configured manager identifier. -/
def mgr : String := "850344514605416468"

/-- The configured admin identifier. -/
def adm : String := "1329817290052734980"

theorem C5_witness :
    (add_comment c5Store oidA (some mgr) (some "ok") 5 6).1 =
      .ok (.ack ("Comment added successfully")) ∧
    (delete_request c5Store oidA (some mgr)).1 =
      .error (.forbidden ("Not authorized to delete this request")) ∧
    (delete_request c5Store oidA (some adm)).1 =
      .ok (.ack ("Request deleted successfully")) ∧
    (delete_comment c5Store oidA 0 (some mgr) 7).1 =
      .error (.forbidden ("Not authorized to delete this comment")) := by
  have h := C5_role_matrix c5Store oidA c5Req mgr (by decide) (by decide)
    (by decide) (by decide) (by decide)
  exact ⟨h.1 "ok" 5 6 (by decide), h.2.2.1,
    (h.2.2.2.2.1 adm).mpr (Or.inr (by decide)),
    h.2.2.2.1 0 7 (by decide) (by decide) (by decide)⟩

/-! ### C6 -/

def c6Payload : CreatePayload :=
  { gameName := some "Minecraft", latestVersion := none, details := none,
    iconUrl := none, createdBy := none }

/-- C6 counterexample: `create_request` reads `datetime.utcnow()` twice
— once for `timestamp`, once for `lastActivity`.  With clock reads 0
then 1 the create succeeds, yet the stored record's `lastActivity`
differs from its `timestamp`: the two fields are not guaranteed to hold
the same instant. -/
theorem C6_two_clock_reads_can_differ :
    (create_request [] c6Payload oidA 0 1).1 = .ok (.created oidA) ∧
    (findOne (create_request [] c6Payload oidA 0 1).2 oidA).map
      (fun r => decide (r.lastActivity = r.timestamp)) = some false := by
  decide

/-- C6 amended: for every payload with non-empty gameName the create
succeeds and appends a record with `comments = []`, `timestamp` equal to
the handler's first clock read and `lastActivity` equal to its second;
the two fields hold the same instant exactly when those two consecutive
`utcnow()` reads coincide. -/
theorem C6_create_success_fields (s : Store) (p : CreatePayload) (f g : String)
    (t1 t2 : Nat) (hg : p.gameName = some g) (hne : g ≠ "") :
    (create_request s p f t1 t2).1 = .ok (.created f) ∧
    (create_request s p f t1 t2).2 = s ++ [(f,
      { gameName := g, latestVersion := p.latestVersion.getD "",
        details := p.details.getD "", iconUrl := p.iconUrl.getD "",
        createdBy := p.createdBy.getD "anonymous", comments := [],
        timestamp := t1, lastActivity := t2 })] := by
  unfold create_request
  rw [hg]
  dsimp only
  rw [if_neg hne]
  exact ⟨rfl, rfl⟩

/-- The record `create_request [] c6Payload oidA 0 1` stores. -/
def c6Created : RequestRecord :=
  { gameName := "Minecraft", latestVersion := "", details := "", iconUrl := "",
    createdBy := "anonymous", comments := [], timestamp := 0, lastActivity := 1 }

theorem C6_witness :
    (create_request [] c6Payload oidA 0 1).1 = .ok (.created oidA) ∧
    (create_request [] c6Payload oidA 0 1).2 = [] ++ [(oidA, c6Created)] :=
  C6_create_success_fields [] c6Payload oidA "Minecraft" 0 1 rfl (by decide)

/-! ### C7 -/

/-- C7: across any well-clocked sequence of boundary operations (clock
reads never run backwards, inserted ids fresh) starting from a store of
unique ids whose records satisfy `timestamp ≤ lastActivity` with
activity at most `b`: afterwards every record still satisfies
`timestamp ≤ lastActivity`, and any record still found under its id has
a `lastActivity` no smaller than it started with — `lastActivity` never
decreases. -/
theorem C7_lastActivity_monotone (ops : List Op) (s : Store) (b : Nat)
    (hN : (s.map Prod.fst).Nodup) (hI : StoreInv s) (hB : StoreBound s b)
    (hC : ClockOk b ops s) :
    StoreInv (runOps ops s) ∧
    ∀ id r r', findOne s id = some r → findOne (runOps ops s) id = some r' →
      r.lastActivity ≤ r'.lastActivity := by
  obtain ⟨h1, h2⟩ := runOps_trace ops s b hN hI hB hC
  refine ⟨h1, fun id r r' hr hr' => ?_⟩
  rcases h2 id r' hr' with ⟨r0, hr0, hle⟩ | hge
  · rw [hr] at hr0
    cases hr0
    exact hle
  · exact Nat.le_trans (hB _ (findOne_eq_some_mem hr)) hge

def c7Rec : RequestRecord :=
  { gameName := "G", latestVersion := "", details := "", iconUrl := "",
    createdBy := "anonymous", comments := [], timestamp := 0, lastActivity := 1 }

def c7Store : Store := [(oidA, c7Rec)]

def c7Ops : List Op :=
  [.addCommentOp oidA (some "anonymous") (some "hello") 3 4,
   .createOp c6Payload oidB 5 6]

/-- The record at `oidA` after running `c7Ops` on `c7Store`. -/
def c7RecAfter : RequestRecord :=
  { c7Rec with
    comments := [{ userId := "anonymous", comment := "hello", timestamp := 3 }]
    lastActivity := 4 }

theorem C7_witness :
    StoreInv (runOps c7Ops c7Store) ∧
    c7Rec.lastActivity ≤ c7RecAfter.lastActivity := by
  have h := C7_lastActivity_monotone c7Ops c7Store 1 (by decide) (by decide)
    (by decide) (by decide)
  exact ⟨h.1, h.2 oidA c7Rec c7RecAfter (by decide) (by decide)⟩

/-! ### C8 -/

/-- C8: an edit by the creator at a loaded record is a partial merge:
each of the four metadata fields absent from the patch keeps its stored
value, each present one (even the empty string) takes the supplied
value; `createdBy` and the comment ledger are carried over unchanged,
the record stays at its id, and every other id maps to exactly what it
did before. -/
theorem C8_update_is_partial_merge (s : Store) (id : String)
    (req : RequestRecord) (d : UpdatePayload) (t1 t2 : Nat)
    (hid : isValidObjectId id = true) (hfind : findOne s id = some req)
    (hcr : req.createdBy = d.currentUserId.getD "") :
    (update_request s id d t1 t2).1 = .ok (.ack ("Request updated successfully")) ∧
    findOne (update_request s id d t1 t2).2 id = some
      { gameName := d.gameName.getD req.gameName,
        latestVersion := d.latestVersion.getD req.latestVersion,
        details := d.details.getD req.details,
        iconUrl := d.iconUrl.getD req.iconUrl,
        createdBy := req.createdBy, comments := req.comments,
        timestamp := t1, lastActivity := t2 } ∧
    ∀ id2, id2 ≠ id → findOne (update_request s id d t1 t2).2 id2 =
      findOne s id2 := by
  unfold update_request
  dsimp only
  rw [if_pos hid, hfind]
  dsimp only
  rw [if_neg (fun hc => hc hcr)]
  dsimp only
  exact ⟨rfl, findOne_updateOne_self hfind, fun id2 h2 => findOne_updateOne_ne h2⟩

def c8Req : RequestRecord :=
  { gameName := "Old", latestVersion := "1.0", details := "d", iconUrl := "u",
    createdBy := "creator8",
    comments := [{ userId := "a", comment := "hi", timestamp := 1 }],
    timestamp := 0, lastActivity := 1 }

def c8Other : RequestRecord :=
  { gameName := "Other", latestVersion := "", details := "", iconUrl := "",
    createdBy := "x", comments := [], timestamp := 0, lastActivity := 2 }

def c8Store : Store := [(oidA, c8Req), (oidB, c8Other)]

def c8Patch : UpdatePayload :=
  { currentUserId := some "creator8", gameName := none,
    latestVersion := some "2.0", details := none, iconUrl := some "" }

/-- The merge of `c8Patch` over `c8Req`: absent fields kept, present
fields (including the empty `iconUrl`) replaced. -/
def c8Merged : RequestRecord :=
  { gameName := "Old", latestVersion := "2.0", details := "d", iconUrl := "",
    createdBy := "creator8",
    comments := [{ userId := "a", comment := "hi", timestamp := 1 }],
    timestamp := 5, lastActivity := 6 }

theorem C8_witness :
    (update_request c8Store oidA c8Patch 5 6).1 =
      .ok (.ack ("Request updated successfully")) ∧
    findOne (update_request c8Store oidA c8Patch 5 6).2 oidA = some c8Merged ∧
    findOne (update_request c8Store oidA c8Patch 5 6).2 oidB =
      findOne c8Store oidB := by
  have h := C8_update_is_partial_merge c8Store oidA c8Req c8Patch 5 6
    (by decide) (by decide) (by decide)
  exact ⟨h.1, h.2.1, h.2.2 oidB (by decide)⟩

/-! ### C9 -/

/-- In a list sorted by activity descending, an element strictly more
recent than every other element of the underlying multiset is the
head. -/
theorem head_of_strict_max {l s2 : List (String × RequestRecord)}
    (hperm : l.Perm s2) (hsort : List.Sorted activityDesc l)
    {x : String × RequestRecord} (hx : x ∈ s2)
    (hmax : ∀ p ∈ s2, p ≠ x → p.2.lastActivity < x.2.lastActivity) :
    l.head? = some x := by
  cases l with
  | nil => exact absurd (hperm.mem_iff.mpr hx) (List.not_mem_nil x)
  | cons hd t =>
    by_cases hhx : hd = x
    · rw [hhx]
      rfl
    · exfalso
      have hhs : hd ∈ s2 := hperm.subset (List.mem_cons_self hd t)
      have hlt : hd.2.lastActivity < x.2.lastActivity := hmax hd hhs hhx
      have hxt : x ∈ hd :: t := hperm.mem_iff.mpr hx
      rcases List.mem_cons.mp hxt with h1 | h1
      · exact hhx h1.symm
      · have hrel : activityDesc hd x := List.rel_of_sorted_cons hsort x h1
        exact absurd hlt (Nat.not_lt.mpr hrel)

/-- C9: the listing returns exactly the stored records, sorted by
`lastActivity` descending; and after a successful comment append whose
activity stamp is strictly newer than every other record's activity,
the commented record is the head of a subsequent listing. -/
theorem C9_listing_sorted_and_comment_bumps_to_front :
    (∀ s : Store,
      (get_requests s).1 = .ok (.records (s.insertionSort activityDesc)) ∧
      (s.insertionSort activityDesc).Perm s ∧
      List.Sorted activityDesc (s.insertionSort activityDesc)) ∧
    (∀ (s : Store) (id : String) (req : RequestRecord) (uu cc : String)
        (t1 t2 : Nat), (s.map Prod.fst).Nodup → isValidObjectId id = true →
      findOne s id = some req → strip cc ≠ "" →
      (req.createdBy = uu ∨ uu ∈ ADMINS ∨ uu ∈ MANAGERS) →
      (∀ p ∈ s, p.1 ≠ id → p.2.lastActivity < t2) →
      (((add_comment s id (some uu) (some cc) t1 t2).2).insertionSort
          activityDesc).head? =
        some (id, { req with
          comments := req.comments ++
            [{ userId := uu, comment := strip cc, timestamp := t1 }]
          lastActivity := t2 })) := by
  constructor
  · intro s
    exact ⟨rfl, List.perm_insertionSort activityDesc s,
      List.sorted_insertionSort activityDesc s⟩
  · intro s id req uu cc t1 t2 hN hid hfind hcc hauth hmax
    have hrun : (add_comment s id (some uu) (some cc) t1 t2).2 =
        updateOne s id { req with
          comments := req.comments ++
            [{ userId := uu, comment := strip cc, timestamp := t1 }]
          lastActivity := t2 } := by
      unfold add_comment
      dsimp only
      simp only [Option.getD_some]
      rw [if_neg hcc, if_pos hid, hfind]
      dsimp only
      rw [if_neg (fun hcond => ?_)]
      rcases hauth with hx | hx | hx
      · exact hcond.1 hx
      · exact hcond.2.1 hx
      · exact hcond.2.2 hx
    rw [hrun]
    apply head_of_strict_max (List.perm_insertionSort activityDesc _)
      (List.sorted_insertionSort activityDesc _)
    · exact findOne_eq_some_mem (findOne_updateOne_self hfind)
    · intro p hp hneq
      rcases mem_updateOne_of_nodup hN hp with h1 | h1
      · exact absurd h1 hneq
      · exact hmax p h1.1 h1.2

def c9RecNewer : RequestRecord :=
  { gameName := "N", latestVersion := "", details := "", iconUrl := "",
    createdBy := "x", comments := [], timestamp := 4, lastActivity := 5 }

def c9RecOldest : RequestRecord :=
  { gameName := "O", latestVersion := "", details := "", iconUrl := "",
    createdBy := "creator9", comments := [], timestamp := 0, lastActivity := 1 }

def c9Store : Store := [(oidA, c9RecNewer), (oidB, c9RecOldest)]

/-- The oldest-activity record after the comment lands with stamp 9. -/
def c9Bumped : RequestRecord :=
  { c9RecOldest with
    comments := [{ userId := "creator9", comment := "bump", timestamp := 8 }]
    lastActivity := 9 }

theorem C9_witness :
    (((add_comment c9Store oidB (some "creator9") (some "bump") 8 9).2).insertionSort
        activityDesc).head? = some (oidB, c9Bumped) := by
  have h := C9_listing_sorted_and_comment_bumps_to_front.2 c9Store oidB
    c9RecOldest "creator9" "bump" 8 9 (by decide) (by decide) (by decide)
    (by decide) (Or.inl rfl) (by decide)
  exact h

/-! ### C10 -/

/-- C10: the stripped-emptiness check in `add_comment` runs before the
record lookup: an empty or whitespace-only comment (or an absent
comment field) is rejected with the 400 ValidationError for every
target id — including one that matches nothing or is malformed — and
the store is untouched; such a request never yields NotFound. -/
theorem C10_empty_comment_rejected_before_lookup (s : Store) (id : String)
    (u c : Option String) (t1 t2 : Nat) (h : strip (c.getD "") = "") :
    (add_comment s id u c t1 t2).1 =
      .error (.validationError ("Comment cannot be empty")) ∧
    (add_comment s id u c t1 t2).2 = s := by
  unfold add_comment
  dsimp only
  rw [if_pos h]
  exact ⟨rfl, rfl⟩

theorem C10_witness :
    (add_comment [] "zz" (some "u") (some "   ") 0 0).1 =
      .error (.validationError ("Comment cannot be empty")) ∧
    (add_comment [] "zz" (some "u") (some "   ") 0 0).2 = ([] : Store) :=
  C10_empty_comment_rejected_before_lookup [] "zz" (some "u") (some "   ") 0 0
    (by decide)

end ModsPlatform
